import Mathlib

/-!
Verification of the remote-read dispatch policy of
`NativeCore/Windows/ReadRemoteMemory.cpp`.

The exported function is

  bool ReadRemoteMemory(RC_Pointer handle, RC_Pointer address,
                        RC_Pointer buffer, int offset, int size)

which applies `offset` to `buffer` with `uintptr_t` (wrapping, 64-bit)
arithmetic and dispatches on the process-wide flag `UseKernal`:

  - `UseKernal` false: call `ReadProcessMemory(handle, address, buffer,
    size, &numberOfBytesRead)` and return true iff the call succeeded and
    `size == numberOfBytesRead` (the `int` size is converted to the
    unsigned `SIZE_T` for the comparison);
  - `UseKernal` true and `ByPass != nullptr`: call
    `ByPass->RWVM(ByPass->m_hTarget, address, buffer, size,
    &numberOfBytesRead)` and return true iff the status is
    `STATUS_SUCCESS` (0) and `size == numberOfBytesRead`;
  - every other path returns false.

Machine words (`uintptr_t`, `SIZE_T`) are modelled as `Nat` reduced
modulo `2 ^ 64`; memory (the caller's address space and the target
process's address space) as byte maps `Nat → Nat`.  The two transports
are parameters of the model: a transport takes the call arguments
together with both memories and yields its outcome (success
indication, byte count transferred, and the caller's memory after the
call).  The embedding additionally records which transport was invoked
with which arguments, so that dispatch-exclusivity properties can be
stated.
-/

/-- Modulus of the 64-bit machine word (`uintptr_t`, `SIZE_T`). -/
def WORD : Nat := 2 ^ 64

/-- C++ conversion of a signed integer to the unsigned platform-sized
type: reduction modulo `2 ^ 64`.  Applied by the compiler to `offset`
(added to the `uintptr_t` buffer) and to `size` (passed as, and
compared with, a `SIZE_T`). -/
def intToWord (i : Int) : Nat := (i % (WORD : Int)).toNat

/-- A byte map: an address space seen as a function from addresses to
byte values. -/
def Mem : Type := Nat → Nat

/-- Outcome of one `ReadProcessMemory` call: the `BOOL` return value,
the value stored through `lpNumberOfBytesRead`, and the caller's
memory after the call. -/
structure DirectOutcome where
  ok : Bool
  transferred : Nat
  mem : Mem

/-- The Direct transport (`ReadProcessMemory`): arguments are handle,
remote address, local destination, size, then the target memory and
the caller's memory before the call. -/
def DirectTransport : Type := Nat → Nat → Nat → Nat → Mem → Mem → DirectOutcome

/-- Outcome of one `RWVM` call: the `NTSTATUS` return value, the value
stored through the byte-count out-parameter, and the caller's memory
after the call. -/
structure BypassOutcome where
  status : Int
  transferred : Nat
  mem : Mem

/-- The Bypass transport object (`ByPass`): its own target identifier
`m_hTarget` and the read-virtual-memory primitive `RWVM`. -/
structure BypassObject where
  m_hTarget : Nat
  RWVM : Nat → Nat → Nat → Nat → Mem → Mem → BypassOutcome

/-- `STATUS_SUCCESS` of `ntstatus.h`. -/
def STATUS_SUCCESS : Int := 0

/-- Record of one transport invocation, with the arguments it
received. -/
inductive TransportCall where
  | direct (handle address dst size : Nat)
  | bypass (targetId address dst size : Nat)
deriving DecidableEq

/-- The local destination address a recorded transport call received. -/
def TransportCall.dst : TransportCall → Nat
  | .direct _ _ d _ => d
  | .bypass _ _ d _ => d

/-- Whether a recorded call went to the Direct transport. -/
def TransportCall.isDirect : TransportCall → Bool
  | .direct _ _ _ _ => true
  | .bypass _ _ _ _ => false

/-- Whether a recorded call went to the Bypass transport. -/
def TransportCall.isBypass : TransportCall → Bool
  | .direct _ _ _ _ => false
  | .bypass _ _ _ _ => true

/-- Result of one call of the entry point: the returned boolean, the
caller's memory after the call, and the list of transport invocations
made during the call. -/
structure CallResult where
  result : Bool
  mem : Mem
  calls : List TransportCall

/-- `buffer = reinterpret_cast<RC_Pointer>(reinterpret_cast<uintptr_t>(buffer) + offset)`:
the effective destination, computed with wrapping 64-bit arithmetic
(the signed `offset` is converted to `uintptr_t` first). -/
def effectiveDst (buffer : Nat) ( offset : Int) : Nat :=
  (buffer + intToWord offset) % WORD

/-- Shallow embedding of `ReadRemoteMemory`.  The process-wide state
(`UseKernal`, `ByPass`) and the OS primitive (`ReadProcessMemory`) are
passed as parameters; `targetMem` is the target process's memory and
`localMem` the caller's memory before the call. -/
def ReadRemoteMemory (ReadProcessMemory : DirectTransport) (UseKernal : Bool)
    (ByPass : Option BypassObject) (targetMem localMem : Mem)
    (handle address buffer : Nat) ( offset size : Int) : CallResult :=
  let buffer := effectiveDst buffer offset
  if !UseKernal then
    let o := ReadProcessMemory handle address buffer (intToWord size) targetMem localMem
    let calls := [TransportCall.direct handle address buffer (intToWord size)]
    if o.ok && (intToWord size == o.transferred) then
      ⟨true, o.mem, calls⟩
    else
      ⟨false, o.mem, calls⟩
  else
    match ByPass with
    | some bp =>
      let o := bp.RWVM bp.m_hTarget address buffer (intToWord size) targetMem localMem
      let calls := [TransportCall.bypass bp.m_hTarget address buffer (intToWord size)]
      if o.status == STATUS_SUCCESS && (intToWord size == o.transferred) then
        ⟨true, o.mem, calls⟩
      else
        ⟨false, o.mem, calls⟩
    | none => ⟨false, localMem, []⟩

/-- A transport invocation at destination `d` copied the first `n`
bytes of the target region starting at `a` into `[d, d + n)` of the
caller's memory and changed nothing else. -/
def CopiesBytes (a d n : Nat) (targetMem before after : Mem) : Prop :=
  (∀ i, i < n → after (d + i) = targetMem (a + i)) ∧
  (∀ x, (∀ i, i < n → x ≠ d + i) → after x = before x)

/-- A Direct transport is faithful when every call copies exactly the
bytes it reports transferred and touches nothing else locally. -/
def FaithfulDirect (rpm : DirectTransport) : Prop :=
  ∀ h a d s tm lm,
    CopiesBytes a d (rpm h a d s tm lm).transferred tm lm (rpm h a d s tm lm).mem

/-- A Bypass transport is faithful when every `RWVM` call copies
exactly the bytes it reports transferred and touches nothing else
locally. -/
def FaithfulBypass (bp : BypassObject) : Prop :=
  ∀ t a d s tm lm,
    CopiesBytes a d (bp.RWVM t a d s tm lm).transferred tm lm (bp.RWVM t a d s tm lm).mem

/-- A Direct transport stub returning a fixed outcome and leaving the
caller's memory unchanged. -/
def constDirect (ok : Bool) (n : Nat) : DirectTransport :=
  fun _ _ _ _ _ lm => ⟨ok, n, lm⟩

/-- A Bypass transport stub with target id `t`, returning a fixed
status and byte count and leaving the caller's memory unchanged. -/
def constBypass (t : Nat) (st : Int) (n : Nat) : BypassObject :=
  ⟨t, fun _ _ _ _ _ lm => ⟨st, n, lm⟩⟩

/-- A faithful Direct transport stub: reports full success and really
copies `s` bytes from the target region into the destination. -/
def copyDirect : DirectTransport :=
  fun _ a d s tm lm =>
    ⟨true, s, fun x => if d ≤ x ∧ x < d + s then tm (a + (x - d)) else lm x⟩

/-- The all-zero byte map. -/
def zeroMem : Mem := fun _ => 0

theorem ReadRemoteMemory_direct (rpm : DirectTransport) (bpo : Option BypassObject)
    (tm lm : Mem) (h a b : Nat) ( off sz : Int) :
    ReadRemoteMemory rpm false bpo tm lm h a b off sz =
      ⟨(rpm h a (effectiveDst b off) (intToWord sz) tm lm).ok &&
         (intToWord sz == (rpm h a (effectiveDst b off) (intToWord sz) tm lm).transferred),
       (rpm h a (effectiveDst b off) (intToWord sz) tm lm).mem,
       [TransportCall.direct h a (effectiveDst b off) (intToWord sz)]⟩ := by
  simp only [ReadRemoteMemory, Bool.not_false, if_true]
  split
  next hc => rw [hc]
  next hc => rw [Bool.not_eq_true] at hc; rw [hc]

theorem ReadRemoteMemory_bypass (rpm : DirectTransport) (bp : BypassObject)
    (tm lm : Mem) (h a b : Nat) ( off sz : Int) :
    ReadRemoteMemory rpm true (some bp) tm lm h a b off sz =
      ⟨(bp.RWVM bp.m_hTarget a (effectiveDst b off) (intToWord sz) tm lm).status == STATUS_SUCCESS &&
         (intToWord sz == (bp.RWVM bp.m_hTarget a (effectiveDst b off) (intToWord sz) tm lm).transferred),
       (bp.RWVM bp.m_hTarget a (effectiveDst b off) (intToWord sz) tm lm).mem,
       [TransportCall.bypass bp.m_hTarget a (effectiveDst b off) (intToWord sz)]⟩ := by
  simp only [ReadRemoteMemory, Bool.not_true]
  rw [if_neg Bool.false_ne_true]
  split
  next hc => rw [hc]
  next hc => rw [Bool.not_eq_true] at hc; rw [hc]

theorem ReadRemoteMemory_bypass_none (rpm : DirectTransport)
    (tm lm : Mem) (h a b : Nat) ( off sz : Int) :
    ReadRemoteMemory rpm true none tm lm h a b off sz = ⟨false, lm, []⟩ := by
  simp only [ReadRemoteMemory, Bool.not_true]
  rw [if_neg Bool.false_ne_true]

/-- C1: In Direct mode (`UseKernal` false) the entry point returns true
if and only if `ReadProcessMemory` reports success and the transferred
byte count equals the (`SIZE_T`-converted) `size`; a primitive failure,
or success with a transferred count different from `size`, yields
false. -/
theorem direct_success_iff (rpm : DirectTransport) (bpo : Option BypassObject)
    (tm lm : Mem) (h a b : Nat) ( off sz : Int) :
    (ReadRemoteMemory rpm false bpo tm lm h a b off sz).result = true ↔
      ((rpm h a (effectiveDst b off) (intToWord sz) tm lm).ok = true ∧
       (rpm h a (effectiveDst b off) (intToWord sz) tm lm).transferred = intToWord sz) := by
  rw [ReadRemoteMemory_direct]
  simp only [Bool.and_eq_true, beq_iff_eq]
  constructor
  · rintro ⟨h1, h2⟩; exact ⟨h1, h2.symm⟩
  · rintro ⟨h1, h2⟩; exact ⟨h1, h2.symm⟩

/-- C2: In Bypass mode (`UseKernal` true) with a non-null `ByPass`, the
entry point returns true if and only if `RWVM` returns status
`STATUS_SUCCESS` (0) and its transferred byte count equals the
(`SIZE_T`-converted) `size`; any non-zero status yields false
regardless of the transferred count. -/
theorem bypass_success_iff (rpm : DirectTransport) (bp : BypassObject)
    (tm lm : Mem) (h a b : Nat) ( off sz : Int) :
    (ReadRemoteMemory rpm true (some bp) tm lm h a b off sz).result = true ↔
      ((bp.RWVM bp.m_hTarget a (effectiveDst b off) (intToWord sz) tm lm).status = STATUS_SUCCESS ∧
       (bp.RWVM bp.m_hTarget a (effectiveDst b off) (intToWord sz) tm lm).transferred = intToWord sz) := by
  rw [ReadRemoteMemory_bypass]
  simp only [Bool.and_eq_true, beq_iff_eq]
  constructor
  · rintro ⟨h1, h2⟩; exact ⟨h1, h2.symm⟩
  · rintro ⟨h1, h2⟩; exact ⟨h1, h2.symm⟩

/-- C3: In Bypass mode with a null `ByPass` reference the entry point
returns false, invokes no transport, and leaves the caller's memory
untouched, for every input. -/
theorem bypass_null_no_transport (rpm : DirectTransport) (tm lm : Mem)
    (h a b : Nat) ( off sz : Int) :
    (ReadRemoteMemory rpm true none tm lm h a b off sz).result = false ∧
    (ReadRemoteMemory rpm true none tm lm h a b off sz).calls = [] ∧
    (ReadRemoteMemory rpm true none tm lm h a b off sz).mem = lm := by
  rw [ReadRemoteMemory_bypass_none]
  exact ⟨rfl, rfl, rfl⟩

/-- C10: In Direct mode the `ByPass` reference is never read: the whole
call outcome (result, caller memory, transport invocations) is
identical for any two values of the bypass reference, null included. -/
theorem direct_mode_ignores_bypass (rpm : DirectTransport)
    (bpo1 bpo2 : Option BypassObject) (tm lm : Mem) (h a b : Nat) ( off sz : Int) :
    ReadRemoteMemory rpm false bpo1 tm lm h a b off sz =
      ReadRemoteMemory rpm false bpo2 tm lm h a b off sz := by
  rw [ReadRemoteMemory_direct, ReadRemoteMemory_direct]

/-- C6: every transport invocation made by the call receives exactly
the destination address `buffer + offset`, computed with wrapping
modular 64-bit machine-word arithmetic (the signed `offset` reduced
modulo `2 ^ 64` and the sum reduced modulo `2 ^ 64`), for every
`offset`, zero and negative values included. -/
theorem transport_receives_buffer_plus_offset (rpm : DirectTransport) (uk : Bool)
    (bpo : Option BypassObject) (tm lm : Mem) (h a b : Nat) ( off sz : Int) :
    ((ReadRemoteMemory rpm uk bpo tm lm h a b off sz).calls.all
      (fun c => c.dst == (b + intToWord off) % WORD)) = true := by
  cases uk with
  | false =>
    rw [ReadRemoteMemory_direct]
    simp [TransportCall.dst, effectiveDst]
  | true =>
    cases bpo with
    | none =>
      rw [ReadRemoteMemory_bypass_none]
      simp
    | some bp =>
      rw [ReadRemoteMemory_bypass]
      simp [TransportCall.dst, effectiveDst]

/-- C7: the entry point is a total boolean function and returns true
exactly on the two success paths; every other path (unknown status,
short read, mismatched count, null bypass in bypass mode, failed
primitive) returns false. -/
theorem result_true_characterization (rpm : DirectTransport) (uk : Bool)
    (bpo : Option BypassObject) (tm lm : Mem) (h a b : Nat) ( off sz : Int) :
    (ReadRemoteMemory rpm uk bpo tm lm h a b off sz).result = true ↔
      ((uk = false ∧ (rpm h a (effectiveDst b off) (intToWord sz) tm lm).ok = true ∧
          (rpm h a (effectiveDst b off) (intToWord sz) tm lm).transferred = intToWord sz) ∨
       (uk = true ∧ ∃ bp, bpo = some bp ∧
          (bp.RWVM bp.m_hTarget a (effectiveDst b off) (intToWord sz) tm lm).status = STATUS_SUCCESS ∧
          (bp.RWVM bp.m_hTarget a (effectiveDst b off) (intToWord sz) tm lm).transferred = intToWord sz)) := by
  cases uk with
  | false =>
    rw [ReadRemoteMemory_direct]
    simp only [Bool.and_eq_true, beq_iff_eq]
    constructor
    · rintro ⟨h1, h2⟩
      exact Or.inl ⟨trivial, h1, h2.symm⟩
    · rintro (⟨_, h1, h2⟩ | ⟨hcontra, _⟩)
      · exact ⟨h1, h2.symm⟩
      · exact absurd hcontra (by simp)
  | true =>
    cases bpo with
    | none =>
      rw [ReadRemoteMemory_bypass_none]
      simp
    | some bp =>
      rw [ReadRemoteMemory_bypass]
      simp only [Bool.and_eq_true, beq_iff_eq, Option.some.injEq]
      constructor
      · rintro ⟨h1, h2⟩
        exact Or.inr ⟨trivial, bp, rfl, h1, h2.symm⟩
      · rintro (⟨hcontra, _⟩ | ⟨_, bp2, hbp, h1, h2⟩)
        · exact absurd hcontra (by simp)
        · subst hbp
          exact ⟨h1, h2.symm⟩

/-- C9: in Bypass mode the read is keyed by the bypass object's own
internal target identifier `m_hTarget`, never by the `handle`
argument: the whole call outcome is independent of `handle`, and with
a non-null bypass object the single transport invocation carries
`m_hTarget`, not `handle`. -/
theorem bypass_keyed_by_target_id (rpm : DirectTransport) (bpo : Option BypassObject)
    (tm lm : Mem) (h1 h2 a b : Nat) ( off sz : Int) :
    (ReadRemoteMemory rpm true bpo tm lm h1 a b off sz =
       ReadRemoteMemory rpm true bpo tm lm h2 a b off sz) ∧
    (∀ bp, bpo = some bp →
      (ReadRemoteMemory rpm true bpo tm lm h1 a b off sz).calls =
        [TransportCall.bypass bp.m_hTarget a (effectiveDst b off) (intToWord sz)]) := by
  constructor
  · cases bpo with
    | none => rw [ReadRemoteMemory_bypass_none, ReadRemoteMemory_bypass_none]
    | some bp => rw [ReadRemoteMemory_bypass, ReadRemoteMemory_bypass]
  · rintro bp rfl
    rw [ReadRemoteMemory_bypass]

/-- Witness for C9 at concrete inputs: two different handles give the
same outcome and the recorded bypass call carries the bypass target id
42, not the handle. -/
theorem bypass_keyed_by_target_id_witness :
    (ReadRemoteMemory (constDirect true 0) true (some (constBypass 42 0 8)) zeroMem zeroMem
        1 2 3 4 8 =
       ReadRemoteMemory (constDirect true 0) true (some (constBypass 42 0 8)) zeroMem zeroMem
        99 2 3 4 8) ∧
    (ReadRemoteMemory (constDirect true 0) true (some (constBypass 42 0 8)) zeroMem zeroMem
        1 2 3 4 8).calls =
      [TransportCall.bypass 42 2 (effectiveDst 3 4) (intToWord 8)] :=
  ⟨(bypass_keyed_by_target_id (constDirect true 0) (some (constBypass 42 0 8)) zeroMem zeroMem
      1 99 2 3 4 8).1,
   (bypass_keyed_by_target_id (constDirect true 0) (some (constBypass 42 0 8)) zeroMem zeroMem
      1 99 2 3 4 8).2 (constBypass 42 0 8) rfl⟩

/-- C4 counterexample: the claim "on every call exactly one transport
is consulted" fails at a concrete call in Bypass mode with a null
bypass reference, where no transport is consulted at all. -/
theorem not_always_exactly_one_transport :
    (ReadRemoteMemory (constDirect true 0) true none zeroMem zeroMem 0 0 0 0 0).calls.length ≠ 1 := by
  rw [ReadRemoteMemory_bypass_none]
  simp

/-- C4 (amended): at most one transport is consulted per call, chosen
solely by the mode flag and checked first: mode false consults exactly
the Direct transport once; mode true with a non-null bypass consults
exactly the Bypass transport once; mode true with a null bypass
consults none.  The branches are exclusive and a failed attempt never
falls back to the other transport within the same call. -/
theorem at_most_one_transport_per_call (rpm : DirectTransport) (uk : Bool)
    (bpo : Option BypassObject) (tm lm : Mem) (h a b : Nat) ( off sz : Int) :
    ((ReadRemoteMemory rpm uk bpo tm lm h a b off sz).calls.length ≤ 1) ∧
    (uk = false →
      (ReadRemoteMemory rpm uk bpo tm lm h a b off sz).calls =
        [TransportCall.direct h a (effectiveDst b off) (intToWord sz)]) ∧
    (∀ bp, bpo = some bp → uk = true →
      (ReadRemoteMemory rpm uk bpo tm lm h a b off sz).calls =
        [TransportCall.bypass bp.m_hTarget a (effectiveDst b off) (intToWord sz)]) ∧
    (uk = true → bpo = none →
      (ReadRemoteMemory rpm uk bpo tm lm h a b off sz).calls = []) := by
  cases uk with
  | false =>
    rw [ReadRemoteMemory_direct]
    refine ⟨by simp, fun _ => rfl, fun bp hbp hcontra => absurd hcontra (by simp), fun hcontra => absurd hcontra (by simp)⟩
  | true =>
    cases bpo with
    | none =>
      rw [ReadRemoteMemory_bypass_none]
      refine ⟨by simp, fun hcontra => absurd hcontra (by simp), ?_, fun _ _ => rfl⟩
      rintro bp hbp
      exact absurd hbp (by simp)
    | some bp =>
      rw [ReadRemoteMemory_bypass]
      refine ⟨by simp, fun hcontra => absurd hcontra (by simp), ?_, fun _ hcontra => absurd hcontra (by simp)⟩
      rintro bp2 hbp _
      rw [Option.some.injEq] at hbp
      rw [hbp]

/-- Witness for the amended C4 at concrete inputs: a Direct-mode call
makes exactly one invocation, of the Direct transport. -/
theorem at_most_one_transport_per_call_witness :
    (ReadRemoteMemory (constDirect true 4) false none zeroMem zeroMem 5 6 7 0 4).calls.length ≤ 1 ∧
    (ReadRemoteMemory (constDirect true 4) false none zeroMem zeroMem 5 6 7 0 4).calls =
      [TransportCall.direct 5 6 (effectiveDst 7 0) (intToWord 4)] :=
  ⟨(at_most_one_transport_per_call (constDirect true 4) false none zeroMem zeroMem 5 6 7 0 4).1,
   (at_most_one_transport_per_call (constDirect true 4) false none zeroMem zeroMem 5 6 7 0 4).2.1 rfl⟩

theorem intToWord_neg ( sz : Int) (hlb : -(2 : Int) ^ 31 ≤ sz) (hneg : sz < 0) :
    (intToWord sz : Int) = 2 ^ 64 + sz := by
  unfold intToWord WORD
  have h1 : ((2 : Int) ^ 64) = 18446744073709551616 := by norm_num
  have h2 : ((2 : Int) ^ 31) = 2147483648 := by norm_num
  have h3 : ((2 ^ 64 : Nat) : Int) = 18446744073709551616 := by norm_num
  rw [h3] at *
  rw [Int.toNat_of_nonneg (Int.emod_nonneg sz (by norm_num))]
  omega

/-- C8: the `size == numberOfBytesRead` comparison converts the 32-bit
signed `size` to the unsigned platform-sized type first, in both the
Direct and the Bypass branch: a negative `size` compares equal exactly
to `2 ^ 64 + size`, its value reduced modulo `2 ^ 64`. -/
theorem size_compared_unsigned (rpm : DirectTransport) (bp : BypassObject)
    (tm lm : Mem) (h a b : Nat) ( off sz : Int)
    (hlb : -(2 : Int) ^ 31 ≤ sz) (hneg : sz < 0) :
    ((ReadRemoteMemory rpm false none tm lm h a b off sz).result = true ↔
       ((rpm h a (effectiveDst b off) (intToWord sz) tm lm).ok = true ∧
        (((rpm h a (effectiveDst b off) (intToWord sz) tm lm).transferred : Int) = 2 ^ 64 + sz))) ∧
    ((ReadRemoteMemory rpm true (some bp) tm lm h a b off sz).result = true ↔
       ((bp.RWVM bp.m_hTarget a (effectiveDst b off) (intToWord sz) tm lm).status = STATUS_SUCCESS ∧
        (((bp.RWVM bp.m_hTarget a (effectiveDst b off) (intToWord sz) tm lm).transferred : Int) = 2 ^ 64 + sz))) := by
  have hw := intToWord_neg sz hlb hneg
  constructor
  · rw [ReadRemoteMemory_direct]
    simp only [Bool.and_eq_true, beq_iff_eq, ← hw, Nat.cast_inj]
    constructor
    · rintro ⟨x, y⟩; exact ⟨x, y.symm⟩
    · rintro ⟨x, y⟩; exact ⟨x, y.symm⟩
  · rw [ReadRemoteMemory_bypass]
    simp only [Bool.and_eq_true, beq_iff_eq, ← hw, Nat.cast_inj]
    constructor
    · rintro ⟨x, y⟩; exact ⟨x, y.symm⟩
    · rintro ⟨x, y⟩; exact ⟨x, y.symm⟩

/-- Witness for C8 at a concrete input: with `size = -1` the Direct
branch reports success exactly when the transferred count is
`2 ^ 64 - 1 = 18446744073709551615`. -/
theorem size_compared_unsigned_witness :
    (-(2 : Int) ^ 31 ≤ -1 ∧ (-1 : Int) < 0) ∧
    (ReadRemoteMemory (constDirect true 18446744073709551615) false none zeroMem zeroMem
        0 0 0 0 (-1)).result = true :=
  ⟨⟨by norm_num, by norm_num⟩,
   (size_compared_unsigned (constDirect true 18446744073709551615) (constBypass 0 0 0)
       zeroMem zeroMem 0 0 0 0 (-1) (by norm_num) (by norm_num)).1.mpr
     ⟨rfl, by norm_num [constDirect]⟩⟩

theorem copyDirect_faithful : FaithfulDirect copyDirect := by
  intro h a d s tm lm
  constructor
  · intro i hi
    show (if d ≤ d + i ∧ d + i < d + s then tm (a + (d + i - d)) else lm (d + i)) = tm (a + i)
    rw [if_pos ⟨Nat.le_add_right d i, Nat.add_lt_add_left hi d⟩]
    congr 1
    omega
  · intro x hx
    show (if d ≤ x ∧ x < d + s then tm (a + (x - d)) else lm x) = lm x
    rw [if_neg]
    rintro ⟨hx1, hx2⟩
    exact hx (x - d) (show x - d < s by omega) (by omega)

/-- C5: whenever the entry point returns true and the transports are
faithful byte-map copiers (each call overwrites exactly the bytes it
reports transferred and nothing else), exactly `size` bytes at
`[buffer + offset, buffer + offset + size)` hold the contents of
`[address, address + size)` of the target process, and no byte outside
that window was written. -/
theorem success_copies_exact_window (rpm : DirectTransport) (uk : Bool)
    (bpo : Option BypassObject) (tm lm : Mem) (h a b : Nat) ( off sz : Int)
    (hd : FaithfulDirect rpm) (hb : ∀ bp, bpo = some bp → FaithfulBypass bp)
    (hres : (ReadRemoteMemory rpm uk bpo tm lm h a b off sz).result = true) :
    CopiesBytes a (effectiveDst b off) (intToWord sz) tm lm
      (ReadRemoteMemory rpm uk bpo tm lm h a b off sz).mem := by
  cases uk with
  | false =>
    rw [ReadRemoteMemory_direct] at hres ⊢
    simp only [Bool.and_eq_true, beq_iff_eq] at hres
    have hcopy := hd h a (effectiveDst b off) (intToWord sz) tm lm
    rw [← hres.2] at hcopy
    exact hcopy
  | true =>
    cases bpo with
    | none =>
      rw [ReadRemoteMemory_bypass_none] at hres
      simp at hres
    | some bp =>
      rw [ReadRemoteMemory_bypass] at hres ⊢
      simp only [Bool.and_eq_true, beq_iff_eq] at hres
      have hcopy := hb bp rfl bp.m_hTarget a (effectiveDst b off) (intToWord sz) tm lm
      rw [← hres.2] at hcopy
      exact hcopy

/-- Witness for C5 at concrete inputs: a faithful Direct transport,
a successful 4-byte read from target address 100 into destination
200. -/
theorem success_copies_exact_window_witness :
    FaithfulDirect copyDirect ∧
    CopiesBytes 100 (effectiveDst 200 0) (intToWord 4) zeroMem zeroMem
      (ReadRemoteMemory copyDirect false none zeroMem zeroMem 0 100 200 0 4).mem :=
  ⟨copyDirect_faithful,
   success_copies_exact_window copyDirect false none zeroMem zeroMem 0 100 200 0 4
     copyDirect_faithful (fun _ hbp => Option.noConfusion hbp) rfl⟩
